import Mathlib

/-!
Shallow embedding of the PLY-sequence core of the 4DGS-Web-Editor
(src/src/ply-sequence.ts) and proofs about it.

The embedding covers:
* the mask propagator (applySelectorMask and the copy branch of the export
  handler, lines 61-96 and 263-268 of ply-sequence.ts);
* the frame-registry sorting in setFrames (lines 105-119), with the trailing
  number extracted by the regular expression on the lowercased file name and
  the ES2019-stable comparator sort modelled as a stable insertion sort;
* the interactive frame controller setFrame (lines 130-190) as a step machine:
  a request runs the synchronous prefix of setFrame, and completion steps run
  the continuation that follows the import and first-render awaits.  The
  machine records an event trace (load starts, first renders, destroys,
  adoptions and frame-count announcements);
* the export handler (lines 201-302) as a function from an environment
  (per-frame load, handle-acquisition and serialization outcomes, the oracle
  results of the external intersection collaborator, and the live status
  array) to an event trace plus the final live status array.

External collaborators (import, assetLoader, the intersection oracle, popups,
the writer) are inputs of the model; their outcomes are environment data.
JavaScript numbers that hold frame counts and point-state bytes are modelled
as Nat, pattern digits parsed by parseInt as their exact decimal value.
-/

namespace PlySequence

/-- Modelled from the spec: the splat-state module is not among the provided
sources.  The spec fixes the status byte layout only up to a designated
deleted bit and, in its mask testable property, uses a deleted-bit value
of 1, which we adopt. -/
def State.deleted : Nat := 1

/-- Selector branch of the mask propagator, ply-sequence.ts lines 61-96.
The result of the external intersection oracle (scene.dataProcessor.intersect)
is the second argument: one byte per point, 255 meaning fully inside.  The
loop runs up to the minimum of the two lengths; within it the deleted bit is
set when the oracle byte differs from 255 and cleared otherwise (the
JavaScript expression state[idx] &= ~State.deleted keeps only the low byte
when stored back into the Uint8Array, hence the 255 ^^^ mask below). -/
def applySelectorMask : List Nat → List Nat → List Nat
  | [], _ => []
  | b :: bs, [] => b :: bs
  | b :: bs, m :: ms =>
    (if m ≠ 255 then b ||| State.deleted else b &&& (255 ^^^ State.deleted)) ::
      applySelectorMask bs ms

/-- TypedArray.prototype.set: overwrite the first src.length entries of dst
with src, keeping the rest.  The caller (the export handler) only invokes it
when both lengths are equal. -/
def uset (dst src : List Nat) : List Nat :=
  src ++ dst.drop src.length

/-- Copy branch of the mask propagation in the export handler,
ply-sequence.ts lines 265-268: when no selector is active, the reference
status array is copied onto the target iff it exists and the lengths match;
otherwise the target is left as loaded. -/
def applyCopyMask (old : Option (List Nat)) (t : List Nat) : List Nat :=
  match old with
  | some o => if o.length = t.length then uset t o else t
  | none => t

/-- One mask-propagation step of the export loop, ply-sequence.ts lines
263-268.  Returns the (reference status, transient status) pair after the
step; the source mutates only the transient array, which is reflected in the
first component being passed through. -/
def maskPair (sel : Bool) (oracle : List Nat) (old : Option (List Nat))
    (t : List Nat) : Option (List Nat) × List Nat :=
  if sel then (old, applySelectorMask t oracle)
  else (old, applyCopyMask old t)

/-- Decimal value of a digit string, as parseInt(s, 10) on an all-digit
string. -/
def digitsVal (ds : List Char) : Nat :=
  ds.foldl (fun n c => n * 10 + (c.toNat - 48)) 0

/-- Drop a suffix from a character list when present. -/
def dropTail (l suf : List Char) : Option (List Char) :=
  if suf.isSuffixOf l then some (l.take (l.length - suf.length)) else none

/-- Maximal digit run at the end of a character list. -/
def trailingDigits (l : List Char) : List Char :=
  (l.reverse.takeWhile Char.isDigit).reverse

/-- Trailing frame number of a file name, per the setFrames regular
expression on the lowercased name: a nonempty digit run immediately before an
optional literal .compressed marker followed by the required .ply extension
at the end of the name.  The lazy prefix of the pattern makes the digit run
the last such run, and the greedy digit group makes it maximal, which is
exactly the trailing digit run after stripping the suffixes. -/
def parseTrailing (name : String) : Option Nat :=
  let l := name.data.map Char.toLower
  match dropTail l (".ply".data) with
  | none => none
  | some base =>
    let base2 :=
      match dropTail base (".compressed".data) with
      | some b => b
      | none => base
    let ds := trailingDigits base2
    if ds.isEmpty then none else some (digitsVal ds)

/-- The comparator of setFrames, ply-sequence.ts lines 110-114: numeric
difference of the parsed trailing numbers when both parse, 0 otherwise. -/
def sorter (a b : String) : Int :=
  match parseTrailing a, parseTrailing b with
  | some x, some y => (x : Int) - (y : Int)
  | _, _ => 0

/-- Stable insertion of a file into an already processed list: the new file
moves before an element only when the comparator strictly orders them.  This
is the element step of the stable comparator sort required by ES2019 for
Array.prototype.sort, which sequenceFiles.sort(sorter) performs on the copy
made by files.slice(). -/
def insertFile (a : String) : List String → List String
  | [] => [a]
  | b :: bs => if sorter b a > 0 then a :: b :: bs else b :: insertFile a bs

/-- The sorted copy produced by setFrames: files.slice().sort(sorter),
modelled as a stable insertion sort processing the input left to right. -/
def sortFiles (fs : List String) : List String :=
  fs.foldl (fun acc x => insertFile x acc) []

/-- Parsed trailing number of a file, defaulting to 0, used only to state
sortedness of all-parseable inputs. -/
def keyOf (s : String) : Nat :=
  (parseTrailing s).getD 0

/-- Files without a parseable trailing number. -/
def noNum (s : String) : Bool :=
  (parseTrailing s).isNone

/-- Observable events of the frame controller.  loadStart marks the start of
an import (the point where setFrame suspends on the import await), rendered
the first-render acknowledgement for a newly loaded point cloud, destroyed a
call to Splat.destroy on a previously current cloud, adopted the assignment
making a cloud current, and frames the timeline.frames announcement of
setFrames. -/
inductive CEvent
  | loadStart (i : Int)
  | rendered (id : Nat)
  | destroyed (id : Nat)
  | adopted (id : Nat)
  | frames (n : Nat)
deriving DecidableEq

/-- State of the frame controller, ply-sequence.ts lines 99-103: the closure
variables sequenceFiles, sequenceFrame, sequenceSplat, sequenceLoading and
nextFrame.  inflight records the target frame of the suspended setFrame call
(a local of that call in the source); counter supplies fresh identities for
loaded point clouds; trace records observable events. -/
structure CtrlState where
  files : List String
  frame : Int
  splat : Option Nat
  loading : Bool
  next : Int
  inflight : Option Int
  counter : Nat
  trace : List CEvent
deriving DecidableEq

/-- Initial controller state: no frames, sequenceFrame = -1, nothing loaded,
nextFrame = -1. -/
def ctrlInit (fs : List String) : CtrlState :=
  { files := fs, frame := -1, splat := none, loading := false,
    next := -1, inflight := none, counter := 0, trace := [] }

/-- setFrames, ply-sequence.ts lines 105-119: replace the stored sequence by
a sorted copy of the input and announce the new frame count. -/
def setFrames (s : CtrlState) (fs : List String) : CtrlState :=
  { s with
    files := sortFiles fs,
    trace := s.trace ++ [CEvent.frames (sortFiles fs).length] }

/-- Synchronous prefix of setFrame, ply-sequence.ts lines 130-166: the guard
cascade (range check, coalescing into nextFrame while a load is in flight,
same-frame no-op, dirty-scene confirmation) followed, when a load actually
starts, by setting sequenceLoading and suspending on the import await with
the requested frame captured in inflight.  dirty is the result of the
scene.dirty collaborator, accept the user answer to the reset popup; on an
accepted reset the scene is cleared and ownership of the current cloud is
dropped without this code destroying it. -/
def setFrame (s : CtrlState) (i : Int) (dirty accept : Bool) : CtrlState :=
  if i < 0 ∨ (s.files.length : Int) ≤ i then s
  else if s.loading then { s with next := i }
  else if i = s.frame then s
  else if dirty && !accept then s
  else
    let s1 := if dirty then { s with splat := none } else s
    { s1 with
      loading := true,
      inflight := some i,
      trace := s1.trace ++ [CEvent.loadStart i] }

/-- External stimuli of the controller: a setFrame invocation (req), the
successful completion of the in-flight import plus first render (completeOk,
running lines 173-189: destroy the previous cloud, adopt the new one, clear
the loading flag and drain the pending slot by re-invoking setFrame), the
rejection of the import or first-render await (completeFail, which simply
terminates the suspended call: nothing after the await runs), and a
setFrames re-registration.  The dirty and accept fields are the environment
answers consumed if the corresponding setFrame prefix reaches its
dirty-scene check. -/
inductive Action
  | req (i : Int) (dirty accept : Bool)
  | completeOk (dirty accept : Bool)
  | completeFail
  | setFrames (fs : List String)

/-- One scheduler step of the controller. -/
def step (s : CtrlState) (a : Action) : CtrlState :=
  match a with
  | Action.setFrames fs => setFrames s fs
  | Action.req i dirty accept => setFrame s i dirty accept
  | Action.completeFail => { s with inflight := none }
  | Action.completeOk dirty accept =>
    match s.inflight with
    | none => s
    | some f =>
      let nid := s.counter
      let t1 := s.trace ++ [CEvent.rendered nid] ++
        (match s.splat with
         | some o => [CEvent.destroyed o]
         | none => []) ++ [CEvent.adopted nid]
      let s1 : CtrlState :=
        { s with
          trace := t1,
          frame := f,
          splat := some nid,
          loading := false,
          inflight := none,
          counter := nid + 1 }
      if s1.next = -1 then s1
      else setFrame { s1 with next := -1 } s1.next dirty accept

/-- Run the controller over a list of scheduler steps. -/
def run (s : CtrlState) (acts : List Action) : CtrlState :=
  acts.foldl step s

/-- Steps that never encounter a dirty scene. -/
def cleanAct : Action → Bool
  | Action.req _ d _ => !d
  | Action.completeOk d _ => !d
  | _ => true

/-- Load-start events, for counting how many loads a run starts. -/
def isLoadStart : CEvent → Bool
  | CEvent.loadStart _ => true
  | _ => false

/-- Invariant of clean controller runs: cloud identities are adopted in
counter order, the current cloud is the last adopted and not destroyed,
exactly the superseded clouds are destroyed, at most once each, and every
destroy is preceded by the first render of the destroyed cloud's
successor. -/
structure CtrlInv (s : CtrlState) : Prop where
  cur_counter : ∀ o, s.splat = some o → o + 1 = s.counter
  adopted_iff : ∀ id, CEvent.adopted id ∈ s.trace ↔ id < s.counter
  none_zero : s.splat = none → s.counter = 0
  destroyed_iff : ∀ id, CEvent.destroyed id ∈ s.trace ↔ id + 2 ≤ s.counter
  destroyed_once : ∀ id, s.trace.count (CEvent.destroyed id) ≤ 1
  destroy_after_render : ∀ n o, s.trace.get? n = some (CEvent.destroyed o) →
    ∃ m, m < n ∧ s.trace.get? m = some (CEvent.rendered (o + 1))

/-- Where a frame of an export run fails, when it fails: the assetLoader
load, the output-handle acquisition (getFileHandle or createWritable), or
serializePly. -/
inductive FailPoint
  | load
  | handle
  | serialize
deriving DecidableEq

/-- Environment of one frame of an export run: its failure point if any, the
status array its transient cloud carries when loaded, the byte array the
intersection oracle would return for it, and the message of the error it
raises on failure. -/
structure FrameEnv where
  fail : Option FailPoint
  loadedState : List Nat
  oracle : List Nat
  msg : String

/-- Default frame environment, used only as the getD fallback. -/
def fe0 : FrameEnv :=
  { fail := none, loadedState := [], oracle := [], msg := "" }

/-- Observable events of an export run.  load is a successful assetLoader
load of a transient cloud, attach the splat.scene assignment plus reference
transform, opened the creation of the FileStreamWriter, written a completed
serializePly carrying the status array it saw, prog a progressUpdate with
the shown numerator, closed the awaited writer.close, drop the end of the
loop iteration's block scope where the transient binding dies, popupErr and
popupOk the error and success popups, progressStart and progressEnd the
progress signals. -/
inductive EEvent
  | progressStart
  | prog (k : Nat)
  | load (i : Nat)
  | attach (i : Nat)
  | opened (i : Nat)
  | written (i : Nat) (st : List Nat)
  | closed (i : Nat)
  | drop (i : Nat)
  | popupErr (m : String)
  | popupOk
  | progressEnd
deriving DecidableEq

/-- Events of a fully successful export-loop iteration, in source order:
load, attach, writer opened, serialization written with the masked status,
progressUpdate and writer close from the finally block, then the iteration
scope ends and the transient binding is dropped. -/
def okBlock (i : Nat) (st : List Nat) : List EEvent :=
  [EEvent.load i, EEvent.attach i, EEvent.opened i, EEvent.written i st,
    EEvent.prog (i + 1), EEvent.closed i, EEvent.drop i]

/-- Events of an iteration whose handle acquisition fails: the transient was
loaded and attached, no writer was opened, the error unwinds the block
scope. -/
def handleFailBlock (i : Nat) : List EEvent :=
  [EEvent.load i, EEvent.attach i, EEvent.drop i]

/-- Events of an iteration whose serialization fails: the finally block still
reports progress and closes the writer, then the error unwinds the block
scope. -/
def serFailBlock (i : Nat) : List EEvent :=
  [EEvent.load i, EEvent.attach i, EEvent.opened i, EEvent.prog (i + 1),
    EEvent.closed i, EEvent.drop i]

/-- The export loop, ply-sequence.ts lines 232-285, over the frame
environments from absolute index i: returns the events of the processed
iterations, the final reference status array, and the error of the failing
frame if one failed (which stops the loop). -/
def loopRun (sel : Bool) :
    Option (List Nat) → Nat → List FrameEnv →
      List EEvent × Option (List Nat) × Option String
  | old, _, [] => ([], old, none)
  | old, i, f :: fs =>
    match f.fail with
    | some FailPoint.load => ([], old, some f.msg)
    | some FailPoint.handle =>
      (handleFailBlock i, (maskPair sel f.oracle old f.loadedState).1,
        some f.msg)
    | some FailPoint.serialize =>
      (serFailBlock i, (maskPair sel f.oracle old f.loadedState).1,
        some f.msg)
    | none =>
      let p := maskPair sel f.oracle old f.loadedState
      let rest := loopRun sel p.1 (i + 1) fs
      (okBlock i p.2 ++ rest.1, rest.2.1, rest.2.2)

/-- Environment of a whole export run: the registered frames, whether a box
or sphere selector is active, whether a current cloud exists and is attached
to a scene, and the current cloud's status array (getProp state, possibly
absent). -/
structure ExportEnv where
  frames : List FrameEnv
  selectorActive : Bool
  hasSplat : Bool
  sceneOk : Bool
  oldState : Option (List Nat)

/-- Result of an export run: its event trace and the live status array after
the run. -/
structure ExportOut where
  trace : List EEvent
  finalOld : Option (List Nat)

/-- The plysequence.export handler, ply-sequence.ts lines 201-302: the two
precondition guards return silently; otherwise progress starts, the loop
runs with an initial progressUpdate, the catch shows exactly one error popup
with the failing frame's message (or the success popup), and the finally
fires progressEnd. -/
def exportRun (env : ExportEnv) : ExportOut :=
  if env.frames.length = 0 ∨ env.hasSplat = false then
    { trace := [], finalOld := env.oldState }
  else if env.sceneOk = false then
    { trace := [], finalOld := env.oldState }
  else
    { trace := [EEvent.progressStart, EEvent.prog 0] ++
        (loopRun env.selectorActive env.oldState 0 env.frames).1 ++
        (match (loopRun env.selectorActive env.oldState 0 env.frames).2.2 with
         | some m => [EEvent.popupErr m]
         | none => [EEvent.popupOk]) ++ [EEvent.progressEnd],
      finalOld := (loopRun env.selectorActive env.oldState 0 env.frames).2.1 }

/-- Error-popup events, for counting failure notifications. -/
def isPopupErr : EEvent → Bool
  | EEvent.popupErr _ => true
  | _ => false

/-- Event a occurs strictly before event b in the trace t. -/
def Before (t : List EEvent) (a b : EEvent) : Prop :=
  ∃ p q, p < q ∧ t.get? p = some a ∧ t.get? q = some b

/-- Concrete export environment with five frames whose third fails during
serialization, used to instantiate the abort theorem. -/
def envAbort : ExportEnv :=
  { frames :=
      [{ fail := none, loadedState := [9, 9], oracle := [], msg := "" },
        { fail := none, loadedState := [9, 9], oracle := [], msg := "" },
        { fail := some FailPoint.serialize, loadedState := [9, 9],
          oracle := [], msg := "boom" },
        { fail := none, loadedState := [9, 9], oracle := [], msg := "" },
        { fail := none, loadedState := [9, 9], oracle := [], msg := "" }],
    selectorActive := false, hasSplat := true, sceneOk := true,
    oldState := some [0, 0] }

/-- Concrete export environment with two fully successful frames, used to
instantiate the transient-lifecycle theorem. -/
def envTwo : ExportEnv :=
  { frames :=
      [{ fail := none, loadedState := [1], oracle := [], msg := "" },
        { fail := none, loadedState := [2], oracle := [], msg := "" }],
    selectorActive := false, hasSplat := true, sceneOk := true,
    oldState := some [7] }

theorem applySelectorMask_get? (state mask : List Nat) (idx : Nat) :
    (applySelectorMask state mask).get? idx =
      match state.get? idx, mask.get? idx with
      | some b, some m =>
        some (if m ≠ 255 then b ||| State.deleted
              else b &&& (255 ^^^ State.deleted))
      | some b, none => some b
      | none, _ => none := by
  induction state generalizing mask idx with
  | nil => simp [applySelectorMask]
  | cons b bs ih =>
    cases mask with
    | nil =>
      show (b :: bs).get? idx = _
      cases h : (b :: bs).get? idx <;> rfl
    | cons m ms =>
      cases idx with
      | zero => simp [applySelectorMask]
      | succ k => simpa [applySelectorMask] using ih ms k

theorem applySelectorMask_length (state mask : List Nat) :
    (applySelectorMask state mask).length = state.length := by
  induction state generalizing mask with
  | nil => simp [applySelectorMask]
  | cons b bs ih =>
    cases mask with
    | nil => simp [applySelectorMask]
    | cons m ms => simpa [applySelectorMask] using ih ms

theorem testBit_254_of_big (p : Nat) (hp : 8 ≤ p) :
    Nat.testBit 254 p = false := by
  refine Nat.testBit_lt_two_pow ?_
  calc (254 : Nat) < 2 ^ 8 := by decide
    _ ≤ 2 ^ p := Nat.pow_le_pow_right (by decide) hp

theorem testBit_254_small (p : Nat) (hp : p < 8) (hp0 : p ≠ 0) :
    Nat.testBit 254 p = true := by
  interval_cases p <;> simp_all <;> decide

/-- Claim C6: in selector mode, applySelectorMask keeps the target length;
for every index below the overlap of the two lengths the result byte has
its deleted bit set iff the oracle byte is not 255 and agrees with the
input byte on every other bit; and every byte at an index at or beyond the
oracle result length is left untouched. -/
theorem C6_selector_mask_spec (state mask : List Nat) :
    (applySelectorMask state mask).length = state.length ∧
    (∀ idx b m, state.get? idx = some b → mask.get? idx = some m → b < 256 →
      ∃ r, (applySelectorMask state mask).get? idx = some r ∧
        r.testBit 0 = decide (m ≠ 255) ∧
        ∀ p, p ≠ 0 → r.testBit p = b.testBit p) ∧
    (∀ idx, mask.length ≤ idx →
      (applySelectorMask state mask).get? idx = state.get? idx) := by
  refine ⟨applySelectorMask_length state mask, ?_, ?_⟩
  · intro idx b m hb hm hlt
    have hx : (255 ^^^ State.deleted : Nat) = 254 := by decide
    rw [applySelectorMask_get?, hb, hm]
    refine ⟨_, rfl, ?_, ?_⟩
    · by_cases h : m = 255
      · simp [h, hx, State.deleted, Nat.testBit_land]
      · simp [h, State.deleted, Nat.testBit_lor]
    · intro p hp
      by_cases h : m = 255
      · simp only [h, ne_eq, not_true_eq_false, if_false, hx,
          Nat.testBit_land]
        by_cases h8 : p < 8
        · rw [testBit_254_small p h8 hp, Bool.and_true]
        · rw [testBit_254_of_big p (Nat.le_of_not_lt h8), Bool.and_false]
          refine (Nat.testBit_lt_two_pow ?_).symm
          calc b < 2 ^ 8 := hlt
            _ ≤ 2 ^ p := Nat.pow_le_pow_right (by decide) (Nat.le_of_not_lt h8)
      · have h1 : Nat.testBit 1 p = false := by
          refine Nat.testBit_lt_two_pow ?_
          calc (1 : Nat) < 2 ^ 1 := by decide
            _ ≤ 2 ^ p := Nat.pow_le_pow_right (by decide) (Nat.one_le_iff_ne_zero.mpr hp)
        simp [h, State.deleted, Nat.testBit_lor, h1]
  · intro idx hidx
    have hm : mask.get? idx = none := List.get?_eq_none.mpr hidx
    rw [applySelectorMask_get?, hm]
    cases state.get? idx <;> rfl

/-- Witness for C6 on the spec example: oracle [255, 0, 255] against target
bytes [2, 8, 5, 9]; index 1 gets the deleted bit set on top of its other
bits, and index 3, beyond the oracle result, is untouched. -/
theorem C6_selector_mask_witness :
    (applySelectorMask [2, 8, 5, 9] [255, 0, 255]).get? 3 =
      ([2, 8, 5, 9] : List Nat).get? 3 ∧
    (applySelectorMask [2, 8, 5, 9] [255, 0, 255]).length = 4 := by
  constructor
  · exact (C6_selector_mask_spec [2, 8, 5, 9] [255, 0, 255]).2.2 3 (by decide)
  · exact ((C6_selector_mask_spec [2, 8, 5, 9] [255, 0, 255]).1).trans (by decide)

/-- Claim C7: with no selector, the reference status array is copied
verbatim onto the target exactly when it exists and the lengths agree;
when the reference is absent or the lengths differ the target is not
mutated.  The last conjunct ties the branch into the per-frame mask step
of the export loop. -/
theorem C7_copy_mask_spec (old : Option (List Nat)) (t : List Nat) :
    (∀ o, old = some o → o.length = t.length → applyCopyMask old t = o) ∧
    (old = none → applyCopyMask old t = t) ∧
    (∀ o, old = some o → o.length ≠ t.length → applyCopyMask old t = t) ∧
    (∀ orc, maskPair false orc old t = (old, applyCopyMask old t)) := by
  refine ⟨?_, ?_, ?_, ?_⟩
  · intro o ho hlen
    subst ho
    simp [applyCopyMask, uset, hlen, List.drop_length]
  · intro ho
    subst ho
    rfl
  · intro o ho hlen
    subst ho
    simp [applyCopyMask, hlen]
  · intro orc
    rfl

/-- Witness for C7 on the spec example: reference [0, 1, 0, 2] over target
[9, 9, 9, 9] of equal length is copied bit for bit. -/
theorem C7_copy_mask_witness :
    applyCopyMask (some [0, 1, 0, 2]) [9, 9, 9, 9] = [0, 1, 0, 2] :=
  (C7_copy_mask_spec (some [0, 1, 0, 2]) [9, 9, 9, 9]).1 [0, 1, 0, 2] rfl rfl

theorem insertFile_mem (l : List String) (a x : String) :
    x ∈ insertFile a l ↔ x = a ∨ x ∈ l := by
  induction l with
  | nil => simp [insertFile]
  | cons b bs ih =>
    by_cases h : sorter b a > 0
    · simp [insertFile, h, ih]
    · simp [insertFile, h, ih]
      tauto

theorem insertFile_length (a : String) (l : List String) :
    (insertFile a l).length = l.length + 1 := by
  induction l with
  | nil => rfl
  | cons b bs ih =>
    by_cases h : sorter b a > 0 <;> simp [insertFile, h, ih]

theorem insertFile_perm (a : String) (l : List String) :
    (insertFile a l).Perm (a :: l) := by
  induction l with
  | nil => exact List.Perm.refl _
  | cons b bs ih =>
    by_cases h : sorter b a > 0
    · simp [insertFile, h]
    · simp only [insertFile, h, if_false]
      exact (List.Perm.cons b ih).trans (List.Perm.swap a b bs)

theorem sortFilesAux_perm (l acc : List String) :
    (l.foldl (fun r x => insertFile x r) acc).Perm (acc ++ l) := by
  induction l generalizing acc with
  | nil => simp
  | cons x xs ih =>
    refine (ih (insertFile x acc)).trans ?_
    refine (List.Perm.append_right xs (insertFile_perm x acc)).trans ?_
    exact List.perm_middle.symm

theorem sortFiles_perm (fs : List String) : (sortFiles fs).Perm fs := by
  simpa [sortFiles] using sortFilesAux_perm fs []

theorem sortFilesAux_length (l acc : List String) :
    (l.foldl (fun r x => insertFile x r) acc).length =
      acc.length + l.length := by
  induction l generalizing acc with
  | nil => rfl
  | cons x xs ih =>
    rw [List.foldl_cons, ih (insertFile x acc), insertFile_length]
    simp only [List.length_cons]
    omega

theorem sortFiles_length (fs : List String) :
    (sortFiles fs).length = fs.length := by
  simpa [sortFiles] using sortFilesAux_length fs []

theorem keyOf_eq (a : String) (ka : Nat) (h : parseTrailing a = some ka) :
    keyOf a = ka := by
  simp [keyOf, h]

theorem insertFile_pairwise (a : String) (l : List String)
    (ha : (parseTrailing a).isSome = true)
    (hl : ∀ x ∈ l, (parseTrailing x).isSome = true)
    (h : l.Pairwise (fun x y => keyOf x ≤ keyOf y)) :
    (insertFile a l).Pairwise (fun x y => keyOf x ≤ keyOf y) := by
  induction l with
  | nil => simp [insertFile]
  | cons b bs ih =>
    obtain ⟨hb, hbs⟩ := List.pairwise_cons.mp h
    obtain ⟨ka, hka⟩ := Option.isSome_iff_exists.mp ha
    obtain ⟨kb, hkb⟩ :=
      Option.isSome_iff_exists.mp (hl b (List.mem_cons_self b bs))
    by_cases hc : sorter b a > 0
    · have hlt : keyOf a < keyOf b := by
        rw [keyOf_eq a ka hka, keyOf_eq b kb hkb]
        have : (0 : Int) < (kb : Int) - (ka : Int) := by
          simpa [sorter, hka, hkb] using hc
        omega
      simp only [insertFile, hc, if_true]
      refine List.pairwise_cons.mpr ⟨?_, h⟩
      intro x hx
      rcases List.mem_cons.mp hx with hx | hx
      · exact hx ▸ Nat.le_of_lt hlt
      · exact Nat.le_trans (Nat.le_of_lt hlt) (hb x hx)
    · have hle : keyOf b ≤ keyOf a := by
        rw [keyOf_eq a ka hka, keyOf_eq b kb hkb]
        have : ¬ ((0 : Int) < (kb : Int) - (ka : Int)) := by
          simpa [sorter, hka, hkb] using hc
        omega
      simp only [insertFile, hc, if_false]
      refine List.pairwise_cons.mpr ⟨?_, ?_⟩
      · intro x hx
        rcases (insertFile_mem bs a x).mp hx with hx | hx
        · exact hx ▸ hle
        · exact hb x hx
      · exact ih (fun x hx => hl x (List.mem_cons_of_mem b hx)) hbs

theorem sortFilesAux_pairwise (l : List String) :
    ∀ acc : List String,
      (∀ x ∈ l, (parseTrailing x).isSome = true) →
      (∀ x ∈ acc, (parseTrailing x).isSome = true) →
      acc.Pairwise (fun x y => keyOf x ≤ keyOf y) →
      (l.foldl (fun r x => insertFile x r) acc).Pairwise
        (fun x y => keyOf x ≤ keyOf y) := by
  induction l with
  | nil => exact fun acc _ _ h => h
  | cons x xs ih =>
    intro acc hl hacc h
    refine ih (insertFile x acc)
      (fun y hy => hl y (List.mem_cons_of_mem x hy)) ?_
      (insertFile_pairwise x acc (hl x (List.mem_cons_self x xs)) hacc h)
    intro y hy
    rcases (insertFile_mem acc x y).mp hy with hy | hy
    · exact hy ▸ hl x (List.mem_cons_self x xs)
    · exact hacc y hy

theorem insertFile_noNum_eq (a : String) (ha : noNum a = true)
    (l : List String) : insertFile a l = l ++ [a] := by
  have hnone : parseTrailing a = none := by
    simpa [noNum, Option.isNone_iff_eq_none] using ha
  induction l with
  | nil => rfl
  | cons b bs ih =>
    have hz : sorter b a = 0 := by
      rcases hb : parseTrailing b with _ | kb <;> simp [sorter, hb, hnone]
    simp [insertFile, hz, ih]

theorem filter_insertFile_some (a : String) (ha : noNum a = false)
    (l : List String) :
    (insertFile a l).filter noNum = l.filter noNum := by
  induction l with
  | nil => simp [insertFile, ha]
  | cons b bs ih =>
    by_cases hc : sorter b a > 0
    · simp [insertFile, hc, List.filter_cons, ha]
    · simp only [insertFile, hc, if_false, List.filter_cons]
      cases noNum b <;> simp [ih]

theorem filter_sortFilesAux (l acc : List String) :
    (l.foldl (fun r x => insertFile x r) acc).filter noNum =
      acc.filter noNum ++ l.filter noNum := by
  induction l generalizing acc with
  | nil => simp
  | cons x xs ih =>
    rw [List.foldl_cons, ih (insertFile x acc)]
    by_cases hx : noNum x
    · rw [insertFile_noNum_eq x hx acc]
      simp [List.filter_cons, hx]
    · rw [filter_insertFile_some x (Bool.eq_false_iff.mpr hx) acc]
      simp [List.filter_cons, hx]

/-- Claim C8: setFrames stores the sorted copy and announces the input
length as the frame count; when every file name has a parseable trailing
number the stored order is non-decreasing in that number; and files without
a parseable number always keep their relative input order among
themselves. -/
theorem C8_setFrames_sorts (s : CtrlState) (fs : List String) :
    (setFrames s fs).files = sortFiles fs ∧
    (setFrames s fs).trace = s.trace ++ [CEvent.frames fs.length] ∧
    ((∀ x ∈ fs, (parseTrailing x).isSome = true) →
      (sortFiles fs).Pairwise (fun a b => keyOf a ≤ keyOf b)) ∧
    (sortFiles fs).filter noNum = fs.filter noNum := by
  refine ⟨rfl, ?_, ?_, ?_⟩
  · simp [setFrames, sortFiles_length]
  · intro hall
    exact sortFilesAux_pairwise fs [] hall (by simp) (by simp)
  · simpa [sortFiles] using filter_sortFilesAux fs []

/-- Witness for C8: the numeric sort puts frame2.ply before frame10.ply
(lexicographic order would not), the announced count is the input length 2,
and the stored order is non-decreasing in the parsed numbers. -/
theorem C8_setFrames_witness :
    (setFrames (ctrlInit []) ["frame10.ply", "frame2.ply"]).files =
      ["frame2.ply", "frame10.ply"] ∧
    (setFrames (ctrlInit []) ["frame10.ply", "frame2.ply"]).trace =
      [CEvent.frames 2] ∧
    (sortFiles ["frame10.ply", "frame2.ply"]).Pairwise
      (fun a b => keyOf a ≤ keyOf b) := by
  have h := C8_setFrames_sorts (ctrlInit []) ["frame10.ply", "frame2.ply"]
  refine ⟨h.1.trans (by decide), ?_, h.2.2.1 (by decide)⟩
  simpa using h.2.1

theorem get?_append3 {α : Type _} (l m : List α) (n : Nat) :
    (l ++ m).get? n =
      if n < l.length then l.get? n else m.get? (n - l.length) := by
  by_cases h : n < l.length
  · rw [List.get?_append h, if_pos h]
  · rw [List.get?_append_right (Nat.le_of_not_lt h), if_neg h]

theorem ctrlInv_congr {s s' : CtrlState} (h : CtrlInv s)
    (h1 : s'.splat = s.splat) (h2 : s'.counter = s.counter)
    (h3 : s'.trace = s.trace) : CtrlInv s' := by
  constructor
  · intro o ho
    rw [h1] at ho
    rw [h2]
    exact h.cur_counter o ho
  · intro id
    rw [h3, h2]
    exact h.adopted_iff id
  · intro h0
    rw [h1] at h0
    rw [h2]
    exact h.none_zero h0
  · intro id
    rw [h3, h2]
    exact h.destroyed_iff id
  · intro id
    rw [h3]
    exact h.destroyed_once id
  · intro n o hn
    rw [h3] at hn ⊢
    exact h.destroy_after_render n o hn

theorem ctrlInv_snoc_neutral {s : CtrlState} (h : CtrlInv s) (e : CEvent)
    (hd : ∀ id, e ≠ CEvent.destroyed id)
    (ha : ∀ id, e ≠ CEvent.adopted id)
    {s' : CtrlState}
    (h1 : s'.splat = s.splat) (h2 : s'.counter = s.counter)
    (h3 : s'.trace = s.trace ++ [e]) : CtrlInv s' := by
  constructor
  · intro o ho
    rw [h1] at ho
    rw [h2]
    exact h.cur_counter o ho
  · intro id
    rw [h3, h2, List.mem_append, List.mem_singleton]
    constructor
    · rintro (hm | hm)
      · exact (h.adopted_iff id).mp hm
      · exact absurd hm.symm (ha id)
    · intro hlt
      exact Or.inl ((h.adopted_iff id).mpr hlt)
  · intro h0
    rw [h1] at h0
    rw [h2]
    exact h.none_zero h0
  · intro id
    rw [h3, h2, List.mem_append, List.mem_singleton]
    constructor
    · rintro (hm | hm)
      · exact (h.destroyed_iff id).mp hm
      · exact absurd hm.symm (hd id)
    · intro hle
      exact Or.inl ((h.destroyed_iff id).mpr hle)
  · intro id
    have h0 : List.count (CEvent.destroyed id) [e] = 0 := by
      rw [List.count_eq_zero, List.mem_singleton]
      exact fun hm => hd id hm.symm
    rw [h3, List.count_append, h0]
    simpa using h.destroyed_once id
  · intro n o hn
    rw [h3, get?_append3] at hn
    by_cases hlt : n < s.trace.length
    · rw [if_pos hlt] at hn
      obtain ⟨m, hm, hmr⟩ := h.destroy_after_render n o hn
      have hmlt : m < s.trace.length := by
        rcases List.get?_eq_some.mp hmr with ⟨hh, _⟩
        exact hh
      refine ⟨m, hm, ?_⟩
      rw [h3, get?_append3, if_pos hmlt]
      exact hmr
    · rw [if_neg hlt] at hn
      rcases hnl : n - s.trace.length with _ | k
      · rw [hnl] at hn
        exact absurd (Option.some.inj hn) (hd o)
      · rw [hnl] at hn
        simp at hn

theorem ctrlInv_adopt_none {s : CtrlState} (h : CtrlInv s)
    (hsp : s.splat = none) {s' : CtrlState}
    (h1 : s'.splat = some s.counter) (h2 : s'.counter = s.counter + 1)
    (h3 : s'.trace = s.trace ++
      [CEvent.rendered s.counter, CEvent.adopted s.counter]) :
    CtrlInv s' := by
  have hc0 : s.counter = 0 := h.none_zero hsp
  constructor
  · intro o ho
    rw [h1] at ho
    have := Option.some.inj ho
    rw [h2]
    omega
  · intro id
    rw [h3, h2, List.mem_append]
    simp only [List.mem_cons, List.not_mem_nil, or_false]
    rw [h.adopted_iff id]
    constructor
    · rintro (hlt | hm | hm)
      · omega
      · exact absurd hm (by simp)
      · have := CEvent.adopted.inj hm
        omega
    · intro hlt
      by_cases hx : id < s.counter
      · exact Or.inl hx
      · have hx2 : id = s.counter := by omega
        exact Or.inr (Or.inr (by rw [hx2]))
  · intro h0
    rw [h1] at h0
    exact absurd h0 (by simp)
  · intro id
    rw [h3, h2, List.mem_append]
    simp only [List.mem_cons, List.not_mem_nil, or_false]
    rw [h.destroyed_iff id]
    constructor
    · rintro (hle | hm | hm)
      · omega
      · exact absurd hm (by simp)
      · exact absurd hm (by simp)
    · intro hle
      exact absurd hle (by omega)
  · intro id
    rw [h3, List.count_append]
    have h0 : List.count (CEvent.destroyed id)
        [CEvent.rendered s.counter, CEvent.adopted s.counter] = 0 := by
      rw [List.count_eq_zero]
      simp
    rw [h0]
    simpa using h.destroyed_once id
  · intro n o hn
    rw [h3, get?_append3] at hn
    by_cases hlt : n < s.trace.length
    · rw [if_pos hlt] at hn
      obtain ⟨m, hm, hmr⟩ := h.destroy_after_render n o hn
      have hmlt : m < s.trace.length := by
        rcases List.get?_eq_some.mp hmr with ⟨hh, _⟩
        exact hh
      refine ⟨m, hm, ?_⟩
      rw [h3, get?_append3, if_pos hmlt]
      exact hmr
    · rw [if_neg hlt] at hn
      rcases hnl : n - s.trace.length with _ | _ | k <;> rw [hnl] at hn <;>
        simp at hn

theorem ctrlInv_adopt_some {s : CtrlState} (h : CtrlInv s) (o : Nat)
    (hsp : s.splat = some o) {s' : CtrlState}
    (h1 : s'.splat = some s.counter) (h2 : s'.counter = s.counter + 1)
    (h3 : s'.trace = s.trace ++
      [CEvent.rendered s.counter, CEvent.destroyed o,
        CEvent.adopted s.counter]) :
    CtrlInv s' := by
  have hoc : o + 1 = s.counter := h.cur_counter o hsp
  constructor
  · intro o2 ho2
    rw [h1] at ho2
    have := Option.some.inj ho2
    rw [h2]
    omega
  · intro id
    rw [h3, h2, List.mem_append]
    simp only [List.mem_cons, List.not_mem_nil, or_false]
    rw [h.adopted_iff id]
    constructor
    · rintro (hlt | hm | hm | hm)
      · omega
      · exact absurd hm (by simp)
      · exact absurd hm (by simp)
      · have := CEvent.adopted.inj hm
        omega
    · intro hlt
      by_cases hx : id < s.counter
      · exact Or.inl hx
      · have hx2 : id = s.counter := by omega
        exact Or.inr (Or.inr (Or.inr (by rw [hx2])))
  · intro h0
    rw [h1] at h0
    exact absurd h0 (by simp)
  · intro id
    rw [h3, h2, List.mem_append]
    simp only [List.mem_cons, List.not_mem_nil, or_false]
    rw [h.destroyed_iff id]
    constructor
    · rintro (hle | hm | hm | hm)
      · omega
      · exact absurd hm (by simp)
      · have := CEvent.destroyed.inj hm
        omega
      · exact absurd hm (by simp)
    · intro hle
      by_cases hx : id + 2 ≤ s.counter
      · exact Or.inl hx
      · have hx2 : id = o := by omega
        exact Or.inr (Or.inr (Or.inl (by rw [hx2])))
  · intro id
    rw [h3, List.count_append]
    by_cases hio : id = o
    · subst hio
      have hold : List.count (CEvent.destroyed id) s.trace = 0 := by
        rw [List.count_eq_zero, h.destroyed_iff id]
        omega
      have hnew : List.count (CEvent.destroyed id)
          [CEvent.rendered s.counter, CEvent.destroyed id,
            CEvent.adopted s.counter] = 1 := by
        simp [List.count_cons]
      omega
    · have hnew : List.count (CEvent.destroyed id)
          [CEvent.rendered s.counter, CEvent.destroyed o,
            CEvent.adopted s.counter] = 0 := by
        rw [List.count_eq_zero]
        simp only [List.mem_cons, List.not_mem_nil, or_false]
        rintro (hm | hm | hm)
        · exact absurd hm (by simp)
        · exact hio (CEvent.destroyed.inj hm)
        · exact absurd hm (by simp)
      rw [hnew]
      have := h.destroyed_once id
      omega
  · intro n o2 hn
    rw [h3, get?_append3] at hn
    by_cases hlt : n < s.trace.length
    · rw [if_pos hlt] at hn
      obtain ⟨m, hm, hmr⟩ := h.destroy_after_render n o2 hn
      have hmlt : m < s.trace.length := by
        rcases List.get?_eq_some.mp hmr with ⟨hh, _⟩
        exact hh
      refine ⟨m, hm, ?_⟩
      rw [h3, get?_append3, if_pos hmlt]
      exact hmr
    · rw [if_neg hlt] at hn
      rcases hnl : n - s.trace.length with _ | _ | _ | k <;> rw [hnl] at hn
      · exact absurd (Option.some.inj hn) (by simp)
      · have ho2 : o2 = o := (CEvent.destroyed.inj (Option.some.inj hn)).symm
        refine ⟨s.trace.length, by omega, ?_⟩
        rw [h3, get?_append3, if_neg (by omega), Nat.sub_self]
        rw [ho2, hoc]
        rfl
      · exact absurd (Option.some.inj hn) (by simp)
      · simp at hn

theorem setFrame_oob {s : CtrlState} {i : Int} (d acc : Bool)
    (hr : i < 0 ∨ (s.files.length : Int) ≤ i) :
    setFrame s i d acc = s := by
  unfold setFrame
  rw [if_pos hr]

theorem setFrame_pending {s : CtrlState} {i : Int} (d acc : Bool)
    (hr : ¬(i < 0 ∨ (s.files.length : Int) ≤ i)) (hl : s.loading = true) :
    setFrame s i d acc = { s with next := i } := by
  unfold setFrame
  rw [if_neg hr, hl, if_pos rfl]

theorem setFrame_same {s : CtrlState} {i : Int} (d acc : Bool)
    (hr : ¬(i < 0 ∨ (s.files.length : Int) ≤ i)) (hl : s.loading = false)
    (hf : i = s.frame) :
    setFrame s i d acc = s := by
  unfold setFrame
  rw [if_neg hr, hl, if_neg Bool.false_ne_true, if_pos hf]

theorem setFrame_start {s : CtrlState} {i : Int} (acc : Bool)
    (hr : ¬(i < 0 ∨ (s.files.length : Int) ≤ i)) (hl : s.loading = false)
    (hf : i ≠ s.frame) :
    setFrame s i false acc =
      { s with
        loading := true,
        inflight := some i,
        trace := s.trace ++ [CEvent.loadStart i] } := by
  unfold setFrame
  rw [if_neg hr, hl, if_neg Bool.false_ne_true, if_neg hf]
  simp

theorem step_completeOk_eq (s : CtrlState) (d acc : Bool) :
    step s (Action.completeOk d acc) =
      match s.inflight with
      | none => s
      | some f =>
        if s.next = -1 then
          { s with
            trace := s.trace ++ [CEvent.rendered s.counter] ++
              (match s.splat with
               | some o => [CEvent.destroyed o]
               | none => []) ++ [CEvent.adopted s.counter],
            frame := f,
            splat := some s.counter,
            loading := false,
            inflight := none,
            counter := s.counter + 1 }
        else
          setFrame
            { s with
              trace := s.trace ++ [CEvent.rendered s.counter] ++
                (match s.splat with
                 | some o => [CEvent.destroyed o]
                 | none => []) ++ [CEvent.adopted s.counter],
              frame := f,
              splat := some s.counter,
              loading := false,
              inflight := none,
              counter := s.counter + 1,
              next := -1 } s.next d acc := rfl

theorem step_completeOk_none (s : CtrlState) (d acc : Bool)
    (hin : s.inflight = none) : step s (Action.completeOk d acc) = s := by
  rw [step_completeOk_eq, hin]

theorem step_completeOk_some (s : CtrlState) (d acc : Bool) (f : Int)
    (hin : s.inflight = some f) :
    step s (Action.completeOk d acc) =
      if s.next = -1 then
        { s with
          trace := s.trace ++ [CEvent.rendered s.counter] ++
            (match s.splat with
             | some o => [CEvent.destroyed o]
             | none => []) ++ [CEvent.adopted s.counter],
          frame := f,
          splat := some s.counter,
          loading := false,
          inflight := none,
          counter := s.counter + 1 }
      else
        setFrame
          { s with
            trace := s.trace ++ [CEvent.rendered s.counter] ++
              (match s.splat with
               | some o => [CEvent.destroyed o]
               | none => []) ++ [CEvent.adopted s.counter],
            frame := f,
            splat := some s.counter,
            loading := false,
            inflight := none,
            counter := s.counter + 1,
            next := -1 } s.next d acc := by
  rw [step_completeOk_eq, hin]

theorem setFrame_inv {s : CtrlState} (h : CtrlInv s) (i : Int) (acc : Bool) :
    CtrlInv (setFrame s i false acc) := by
  unfold setFrame
  simp only [Bool.false_and, Bool.false_eq_true, if_false]
  split_ifs with h1 h2 h3
  · exact h
  · exact ctrlInv_congr h rfl rfl rfl
  · exact h
  · exact ctrlInv_snoc_neutral h (CEvent.loadStart i) (fun id => by simp)
      (fun id => by simp) rfl rfl rfl

theorem completeOk_inv {s : CtrlState} (h : CtrlInv s) (acc : Bool) :
    CtrlInv (step s (Action.completeOk false acc)) := by
  cases hin : s.inflight with
  | none =>
    rw [step_completeOk_none s false acc hin]
    exact h
  | some f =>
    rw [step_completeOk_some s false acc f hin]
    have hmid : CtrlInv
        { s with
          trace := s.trace ++ [CEvent.rendered s.counter] ++
            (match s.splat with
             | some o => [CEvent.destroyed o]
             | none => []) ++ [CEvent.adopted s.counter],
          frame := f,
          splat := some s.counter,
          loading := false,
          inflight := none,
          counter := s.counter + 1 } := by
      cases hsp : s.splat with
      | none =>
        refine ctrlInv_adopt_none h hsp rfl rfl ?_
        simp [hsp]
      | some o =>
        refine ctrlInv_adopt_some h o hsp rfl rfl ?_
        simp [hsp]
    by_cases hnx : s.next = -1
    · rw [if_pos hnx]
      exact hmid
    · rw [if_neg hnx]
      refine setFrame_inv ?_ s.next acc
      exact ctrlInv_congr hmid rfl rfl rfl

theorem step_inv {s : CtrlState} (h : CtrlInv s) (a : Action)
    (hc : cleanAct a = true) : CtrlInv (step s a) := by
  cases a with
  | setFrames fs =>
    exact ctrlInv_snoc_neutral h (CEvent.frames (sortFiles fs).length)
      (fun id => by simp) (fun id => by simp) rfl rfl rfl
  | req i d acc =>
    have hd : d = false := by simpa [cleanAct] using hc
    subst hd
    exact setFrame_inv h i acc
  | completeFail =>
    exact ctrlInv_congr h rfl rfl rfl
  | completeOk d acc =>
    have hd : d = false := by simpa [cleanAct] using hc
    subst hd
    exact completeOk_inv h acc

theorem ctrlInit_inv (fs : List String) : CtrlInv (ctrlInit fs) := by
  constructor
  · intro o ho
    exact absurd ho (by simp [ctrlInit])
  · intro id
    simp [ctrlInit]
  · intro _
    rfl
  · intro id
    simp [ctrlInit]
  · intro id
    simp [ctrlInit]
  · intro n o hn
    exact absurd hn (by simp [ctrlInit])

theorem run_inv_aux (acts : List Action) :
    ∀ s : CtrlState, CtrlInv s → (∀ a ∈ acts, cleanAct a = true) →
      CtrlInv (run s acts) := by
  induction acts with
  | nil => exact fun s h _ => h
  | cons a as ih =>
    intro s h hc
    rw [show run s (a :: as) = run (step s a) as from rfl]
    exact ih (step s a) (step_inv h a (hc a (List.mem_cons_self a as)))
      (fun b hb => hc b (List.mem_cons_of_mem a hb))

/-- Claim C1, the code evaluated at the failing input: setFrame has no
unconditional cleanup around its awaits, so when the import (or first
render) of the only started load rejects, the suspended call ends with
sequenceLoading still true; a later request for the same frame then only
parks in nextFrame, and the number of started loads stays one forever. -/
theorem C1_loading_flag_stuck :
    (run (ctrlInit ["f0.ply"])
      [Action.req 0 false false, Action.completeFail,
        Action.req 0 false false]).loading = true ∧
    (run (ctrlInit ["f0.ply"])
      [Action.req 0 false false, Action.completeFail,
        Action.req 0 false false]).next = 0 ∧
    (run (ctrlInit ["f0.ply"])
      [Action.req 0 false false, Action.completeFail,
        Action.req 0 false false]).trace.countP isLoadStart = 1 := by
  decide

/-- Claim C4 counterexample: with five frames, a load of frame 1 in flight
and requests 2, 0, 1 issued during that load, the completed load drains the
pending slot onto the already-current frame 1, so zero additional loads
start (the load-start count stays 1), not exactly one targeting the last
request. -/
theorem C4_counterexample :
    (run (ctrlInit ["f0.ply", "f1.ply", "f2.ply", "f3.ply", "f4.ply"])
      [Action.req 1 false false, Action.req 2 false false,
        Action.req 0 false false, Action.req 1 false false,
        Action.completeOk false false]).trace.countP isLoadStart = 1 ∧
    (run (ctrlInit ["f0.ply", "f1.ply", "f2.ply", "f3.ply", "f4.ply"])
      [Action.req 1 false false, Action.req 2 false false,
        Action.req 0 false false, Action.req 1 false false,
        Action.completeOk false false]).loading = false := by
  decide

/-- Claim C4 (amended): if in-range requests a, b, c arrive while a clean
load of frame f is in flight, the pending slot always holds the latest
request; when the load completes, at most one additional load starts: none
when c equals the completed frame f, exactly one targeting c otherwise — in
particular no load ever targets a or b unless that value equals f or c. -/
theorem C4_coalescing (fs : List String) (f a b c : Int)
    (hf0 : 0 ≤ f) (hf1 : f < (((ctrlInit fs).files.length : Nat) : Int))
    (ha0 : 0 ≤ a) (ha1 : a < (fs.length : Int))
    (hb0 : 0 ≤ b) (hb1 : b < (fs.length : Int))
    (hc0 : 0 ≤ c) (hc1 : c < (fs.length : Int)) :
    let s0 := step (ctrlInit fs) (Action.req f false false)
    let s1 := step s0 (Action.req a false false)
    let s2 := step s1 (Action.req b false false)
    let s3 := step s2 (Action.req c false false)
    let s4 := step s3 (Action.completeOk false false)
    s0.loading = true ∧ s0.inflight = some f ∧
    s1.next = a ∧ s2.next = b ∧ s3.next = c ∧ s4.next = -1 ∧
    s4.trace = [CEvent.loadStart f, CEvent.rendered 0, CEvent.adopted 0] ++
      (if c = f then [] else [CEvent.loadStart c]) ∧
    s4.inflight = (if c = f then none else some c) := by
  intro s0 s1 s2 s3 s4
  have hf1x : f < (fs.length : Int) := hf1
  clear hf1
  have h0 : s0 =
      { files := fs, frame := -1, splat := none, loading := true,
        next := -1, inflight := some f, counter := 0,
        trace := [CEvent.loadStart f] } := by
    show setFrame (ctrlInit fs) f false false = _
    rw [setFrame_start false
      (by show ¬(f < 0 ∨ (fs.length : Int) ≤ f); omega) rfl
      (by show f ≠ -1; omega)]
    rfl
  have h1 : s1 =
      { files := fs, frame := -1, splat := none, loading := true,
        next := a, inflight := some f, counter := 0,
        trace := [CEvent.loadStart f] } := by
    show setFrame s0 a false false = _
    rw [h0]
    rw [setFrame_pending false false
      (by show ¬(a < 0 ∨ (fs.length : Int) ≤ a); omega) rfl]
  have h2 : s2 =
      { files := fs, frame := -1, splat := none, loading := true,
        next := b, inflight := some f, counter := 0,
        trace := [CEvent.loadStart f] } := by
    show setFrame s1 b false false = _
    rw [h1]
    rw [setFrame_pending false false
      (by show ¬(b < 0 ∨ (fs.length : Int) ≤ b); omega) rfl]
  have h3 : s3 =
      { files := fs, frame := -1, splat := none, loading := true,
        next := c, inflight := some f, counter := 0,
        trace := [CEvent.loadStart f] } := by
    show setFrame s2 c false false = _
    rw [h2]
    rw [setFrame_pending false false
      (by show ¬(c < 0 ∨ (fs.length : Int) ≤ c); omega) rfl]
  have h4 : s4 = setFrame
      { files := fs, frame := f, splat := some 0, loading := false,
        next := -1, inflight := none, counter := 1,
        trace := [CEvent.loadStart f, CEvent.rendered 0,
          CEvent.adopted 0] } c false false := by
    show step s3 (Action.completeOk false false) = _
    rw [h3, step_completeOk_some _ false false f rfl]
    rw [if_neg (by show ¬(c = -1); omega)]
    rfl
  refine ⟨by rw [h0], by rw [h0], by rw [h1], by rw [h2], by rw [h3],
    ?_, ?_, ?_⟩
  · by_cases hcf : c = f
    · rw [h4, setFrame_same false false
        (by show ¬(c < 0 ∨ (fs.length : Int) ≤ c); omega) rfl hcf]
    · rw [h4, setFrame_start false
        (by show ¬(c < 0 ∨ (fs.length : Int) ≤ c); omega) rfl hcf]
  · by_cases hcf : c = f
    · rw [h4, setFrame_same false false
        (by show ¬(c < 0 ∨ (fs.length : Int) ≤ c); omega) rfl hcf,
        if_pos hcf]
      simp
    · rw [h4, setFrame_start false
        (by show ¬(c < 0 ∨ (fs.length : Int) ≤ c); omega) rfl hcf,
        if_neg hcf]
  · by_cases hcf : c = f
    · rw [h4, setFrame_same false false
        (by show ¬(c < 0 ∨ (fs.length : Int) ≤ c); omega) rfl hcf,
        if_pos hcf]
    · rw [h4, setFrame_start false
        (by show ¬(c < 0 ∨ (fs.length : Int) ≤ c); omega) rfl hcf,
        if_neg hcf]

/-- Witness for C4 (amended) at frames of length 3, in-flight frame 0 and
requests 1, 2, 1: the pending slot ends at 1 and exactly one additional
load starts, targeting 1. -/
theorem C4_coalescing_witness :
    let s0 := step (ctrlInit ["s0.ply", "s1.ply", "s2.ply"])
      (Action.req 0 false false)
    let s1 := step s0 (Action.req 1 false false)
    let s2 := step s1 (Action.req 2 false false)
    let s3 := step s2 (Action.req 1 false false)
    let s4 := step s3 (Action.completeOk false false)
    s3.next = 1 ∧
    s4.trace = [CEvent.loadStart 0, CEvent.rendered 0, CEvent.adopted 0] ++
      (if (1 : Int) = 0 then [] else [CEvent.loadStart 1]) := by
  have h := C4_coalescing ["s0.ply", "s1.ply", "s2.ply"] 0 1 2 1
    (by decide) (by decide) (by decide) (by decide) (by decide) (by decide)
    (by decide) (by decide)
  exact ⟨h.2.2.2.2.1, h.2.2.2.2.2.2.1⟩

/-- Claim C5 counterexample: requestFrame(0) completes and adopts cloud 0;
a requestFrame(1) that hits a dirty scene with the reset accepted drops
cloud 0 via scene.clear without this code destroying it; after the run,
cloud 0 was previously current yet its destroy count is 0, not exactly 1. -/
theorem C5_counterexample :
    let s := run (ctrlInit ["a.ply", "b.ply"])
      [Action.req 0 false false, Action.completeOk false false,
        Action.req 1 true true, Action.completeOk false false]
    CEvent.adopted 0 ∈ s.trace ∧ s.splat = some 1 ∧ s.loading = false ∧
      s.trace.count (CEvent.destroyed 0) = 0 := by
  decide

/-- Claim C5 (amended): after any run of requests and completions in which
no request encounters a dirty scene, the current cloud has never been
destroyed, no cloud is destroyed more than once, every previously adopted
cloud other than the current one is destroyed exactly once, and every
destroy is preceded in the trace by the first render of the destroyed
cloud's successor, which is itself adopted. -/
theorem C5_at_most_one_live (fs : List String) (acts : List Action)
    (hc : ∀ a ∈ acts, cleanAct a = true) :
    let s := run (ctrlInit fs) acts
    (∀ id, s.splat = some id → s.trace.count (CEvent.destroyed id) = 0) ∧
    (∀ id, s.trace.count (CEvent.destroyed id) ≤ 1) ∧
    (∀ id, CEvent.adopted id ∈ s.trace → s.splat ≠ some id →
      s.trace.count (CEvent.destroyed id) = 1) ∧
    (∀ n o, s.trace.get? n = some (CEvent.destroyed o) →
      CEvent.adopted (o + 1) ∈ s.trace ∧
      ∃ m, m < n ∧ s.trace.get? m = some (CEvent.rendered (o + 1))) := by
  intro s
  have h : CtrlInv s := run_inv_aux acts (ctrlInit fs) (ctrlInit_inv fs) hc
  refine ⟨?_, h.destroyed_once, ?_, ?_⟩
  · intro id hid
    have hcc := h.cur_counter id hid
    rw [List.count_eq_zero, h.destroyed_iff id]
    omega
  · intro id had hne
    have hlt : id < s.counter := (h.adopted_iff id).mp had
    have hmem : CEvent.destroyed id ∈ s.trace := by
      rw [h.destroyed_iff id]
      cases hsp : s.splat with
      | none =>
        have := h.none_zero hsp
        omega
      | some o =>
        have hcc := h.cur_counter o hsp
        have hio : id ≠ o := by
          intro he
          subst he
          exact hne hsp
        omega
    have h1 := h.destroyed_once id
    have h2 : 0 < s.trace.count (CEvent.destroyed id) :=
      List.count_pos_iff_mem.mpr hmem
    omega
  · intro n o hn
    have hmem : CEvent.destroyed o ∈ s.trace := List.get?_mem hn
    have hle := (h.destroyed_iff o).mp hmem
    exact ⟨(h.adopted_iff (o + 1)).mpr (by omega),
      h.destroy_after_render n o hn⟩

/-- Witness for C5 (amended) on a clean two-frame run: cloud 0 is adopted,
superseded by cloud 1, and destroyed exactly once. -/
theorem C5_at_most_one_live_witness :
    (run (ctrlInit ["a.ply", "b.ply"])
      [Action.req 0 false false, Action.completeOk false false,
        Action.req 1 false false, Action.completeOk false false]).trace.count
      (CEvent.destroyed 0) = 1 := by
  have h := C5_at_most_one_live ["a.ply", "b.ply"]
    [Action.req 0 false false, Action.completeOk false false,
      Action.req 1 false false, Action.completeOk false false] (by decide)
  exact h.2.2.1 0 (by decide) (by decide)

/-- Claim C10: setFrames touches only the stored file list (replaced by a
sorted copy, a permutation of the input) and the announcement trace; the
frame index, current cloud, loading flag, pending slot and in-flight target
are untouched.  Consequently, on a quiescent controller (no load in
flight), a request for the stale current index after re-registration is a
complete no-op, so the new file at that index is not loaded. -/
theorem C10_setFrames_preserves_controller (s : CtrlState)
    (fs : List String) (d acc : Bool) (hl : s.loading = false) :
    (setFrames s fs).frame = s.frame ∧
    (setFrames s fs).splat = s.splat ∧
    (setFrames s fs).loading = false ∧
    (setFrames s fs).next = s.next ∧
    (setFrames s fs).inflight = s.inflight ∧
    (setFrames s fs).files = sortFiles fs ∧
    (sortFiles fs).Perm fs ∧
    step (setFrames s fs) (Action.req s.frame d acc) = setFrames s fs := by
  refine ⟨rfl, rfl, hl, rfl, rfl, rfl, sortFiles_perm fs, ?_⟩
  show setFrame (setFrames s fs) s.frame d acc = setFrames s fs
  by_cases hr : s.frame < 0 ∨ ((setFrames s fs).files.length : Int) ≤ s.frame
  · exact setFrame_oob d acc hr
  · exact setFrame_same d acc hr hl rfl

/-- Witness for C10: after re-registering two new files over a one-file
registration, requesting the stale current index (-1, nothing current)
leaves the controller exactly as setFrames left it. -/
theorem C10_setFrames_witness :
    step (setFrames (ctrlInit ["old1.ply"]) ["new1.ply", "new0.ply"])
      (Action.req (ctrlInit ["old1.ply"]).frame false false) =
      setFrames (ctrlInit ["old1.ply"]) ["new1.ply", "new0.ply"] := by
  have h := C10_setFrames_preserves_controller (ctrlInit ["old1.ply"])
    ["new1.ply", "new0.ply"] false false rfl
  exact h.2.2.2.2.2.2.2

theorem maskPair_fst (sel : Bool) (orc : List Nat) (old : Option (List Nat))
    (t : List Nat) : (maskPair sel orc old t).1 = old := by
  unfold maskPair
  split <;> rfl

theorem loopRun_old (sel : Bool) (fs : List FrameEnv) :
    ∀ (old : Option (List Nat)) (i : Nat),
      (loopRun sel old i fs).2.1 = old := by
  induction fs with
  | nil =>
    intro old i
    rfl
  | cons f fs ih =>
    intro old i
    cases hfl : f.fail with
    | none => simp [loopRun, hfl, maskPair_fst, ih]
    | some fp => cases fp <;> simp [loopRun, hfl, maskPair_fst]

/-- Claim C9: an export run, whether it ends in the success popup or aborts
with an error at any frame, never writes to the live cloud's status array:
the final reference status equals the initial one in every environment.
All mask mutations land on the transient per-frame status. -/
theorem C9_live_state_untouched (env : ExportEnv) :
    (exportRun env).finalOld = env.oldState := by
  unfold exportRun
  split_ifs with h1 h2
  · rfl
  · rfl
  · exact loopRun_old env.selectorActive env.frames env.oldState 0

theorem loopRun_no_terminal (sel : Bool) (fs : List FrameEnv) :
    ∀ (old : Option (List Nat)) (i : Nat),
      (loopRun sel old i fs).1.countP isPopupErr = 0 ∧
      (loopRun sel old i fs).1.count EEvent.progressEnd = 0 := by
  induction fs with
  | nil =>
    intro old i
    exact ⟨rfl, rfl⟩
  | cons f fs ih =>
    intro old i
    cases hfl : f.fail with
    | none =>
      have hrest := ih (maskPair sel f.oracle old f.loadedState).1 (i + 1)
      simp [loopRun, hfl, okBlock, List.countP_append, List.count_append,
        List.countP_cons, List.count_cons, isPopupErr, hrest.1, hrest.2]
    | some fp =>
      cases fp <;>
        simp [loopRun, hfl, handleFailBlock, serFailBlock,
          List.countP_cons, List.count_cons, isPopupErr]

theorem loopRun_fail (sel : Bool) (fs : List FrameEnv) :
    ∀ (old : Option (List Nat)) (i k : Nat) (fp : FailPoint),
      k < fs.length →
      (∀ j, j < k → (fs.getD j fe0).fail = none) →
      (fs.getD k fe0).fail = some fp →
      (∀ j, j < k →
        ((∃ st, EEvent.written (i + j) st ∈ (loopRun sel old i fs).1) ∧
          EEvent.closed (i + j) ∈ (loopRun sel old i fs).1)) ∧
      (EEvent.opened (i + k) ∈ (loopRun sel old i fs).1 →
        EEvent.closed (i + k) ∈ (loopRun sel old i fs).1) ∧
      (∀ m, i + k < m →
        EEvent.load m ∉ (loopRun sel old i fs).1 ∧
        ∀ st, EEvent.written m st ∉ (loopRun sel old i fs).1) ∧
      (loopRun sel old i fs).2.2 = some ((fs.getD k fe0).msg) := by
  induction fs with
  | nil =>
    intro old i k fp hk _ _
    exact absurd hk (by simp)
  | cons f fs ih =>
    intro old i k fp hk hpre hfail
    cases k with
    | zero =>
      have hf : f.fail = some fp := by simpa using hfail
      cases fp with
      | load =>
        refine ⟨fun j hj => absurd hj (by omega), ?_, ?_, ?_⟩
        · intro h
          simp [loopRun, hf] at h
        · intro m hm
          refine ⟨by simp [loopRun, hf], fun st => by simp [loopRun, hf]⟩
        · simp [loopRun, hf]
      | handle =>
        refine ⟨fun j hj => absurd hj (by omega), ?_, ?_, ?_⟩
        · intro h
          simp [loopRun, hf, handleFailBlock] at h
        · intro m hm
          constructor
          · simp only [loopRun, hf, handleFailBlock]
            intro h
            simp at h
            omega
          · intro st
            simp [loopRun, hf, handleFailBlock]
        · simp [loopRun, hf]
      | serialize =>
        refine ⟨fun j hj => absurd hj (by omega), ?_, ?_, ?_⟩
        · intro _
          simp [loopRun, hf, serFailBlock]
        · intro m hm
          constructor
          · simp only [loopRun, hf, serFailBlock]
            intro h
            simp at h
            omega
          · intro st
            simp [loopRun, hf, serFailBlock]
        · simp [loopRun, hf]
    | succ k' =>
      have hf : f.fail = none := by
        have h0 := hpre 0 (Nat.succ_pos k')
        simpa using h0
      have heq : (loopRun sel old i (f :: fs)).1 =
          okBlock i (maskPair sel f.oracle old f.loadedState).2 ++
            (loopRun sel (maskPair sel f.oracle old f.loadedState).1
              (i + 1) fs).1 := by
        simp [loopRun, hf]
      have heq2 : (loopRun sel old i (f :: fs)).2.2 =
          (loopRun sel (maskPair sel f.oracle old f.loadedState).1
            (i + 1) fs).2.2 := by
        simp [loopRun, hf]
      have hk' : k' < fs.length := by simpa using hk
      obtain ⟨ihA, ihB, ihC, ihD⟩ :=
        ih (maskPair sel f.oracle old f.loadedState).1 (i + 1) k' fp hk'
          (fun j hj => by simpa using hpre (j + 1) (by omega))
          (by simpa using hfail)
      refine ⟨?_, ?_, ?_, ?_⟩
      · intro j hj
        cases j with
        | zero =>
          constructor
          · refine ⟨(maskPair sel f.oracle old f.loadedState).2, ?_⟩
            rw [heq, List.mem_append]
            exact Or.inl (by simp [okBlock])
          · rw [heq, List.mem_append]
            exact Or.inl (by simp [okBlock])
        | succ j' =>
          have hj' : j' < k' := by omega
          have harith : i + (j' + 1) = (i + 1) + j' := by omega
          constructor
          · obtain ⟨st, hst⟩ := (ihA j' hj').1
            refine ⟨st, ?_⟩
            rw [heq, List.mem_append, harith]
            exact Or.inr hst
          · rw [heq, List.mem_append, harith]
            exact Or.inr (ihA j' hj').2
      · intro hop
        rw [heq, List.mem_append] at hop
        have harith : i + (k' + 1) = (i + 1) + k' := by omega
        rcases hop with hop | hop
        · simp [okBlock] at hop
        · rw [heq, List.mem_append, harith]
          rw [harith] at hop
          exact Or.inr (ihB hop)
      · intro m hm
        have hm1 : (i + 1) + k' < m := by omega
        constructor
        · rw [heq, List.mem_append]
          rintro (h | h)
          · simp [okBlock] at h
            omega
          · exact (ihC m hm1).1 h
        · intro st
          rw [heq, List.mem_append]
          rintro (h | h)
          · simp [okBlock] at h
            omega
          · exact (ihC m hm1).2 st h
      · rw [heq2, ihD]
        simp

/-- Claim C2: if an export of n frames first fails at frame k, every frame
before k has a completed write with its writer closed, any writer opened for
frame k is closed, no frame after k is loaded or written, exactly one error
popup fires and it carries the failing frame's message, and progressEnd
fires exactly once. -/
theorem C2_export_abort (env : ExportEnv) (k : Nat) (fp : FailPoint)
    (hs : env.hasSplat = true) (hsc : env.sceneOk = true)
    (hk : k < env.frames.length)
    (hpre : ∀ j, j < k → (env.frames.getD j fe0).fail = none)
    (hfail : (env.frames.getD k fe0).fail = some fp) :
    (∀ j, j < k →
      (∃ st, EEvent.written j st ∈ (exportRun env).trace) ∧
      EEvent.closed j ∈ (exportRun env).trace) ∧
    (EEvent.opened k ∈ (exportRun env).trace →
      EEvent.closed k ∈ (exportRun env).trace) ∧
    (∀ m, k < m → EEvent.load m ∉ (exportRun env).trace ∧
      ∀ st, EEvent.written m st ∉ (exportRun env).trace) ∧
    (exportRun env).trace.countP isPopupErr = 1 ∧
    EEvent.popupErr ((env.frames.getD k fe0).msg) ∈ (exportRun env).trace ∧
    (exportRun env).trace.count EEvent.progressEnd = 1 := by
  obtain ⟨hA, hB, hC, hD⟩ :=
    loopRun_fail env.selectorActive env.frames env.oldState 0 k fp hk
      hpre hfail
  have hg1 : ¬(env.frames.length = 0 ∨ env.hasSplat = false) := by
    rintro (h | h)
    · omega
    · rw [hs] at h
      exact absurd h (by simp)
  have hg2 : ¬(env.sceneOk = false) := by
    rw [hsc]
    simp
  have htr : (exportRun env).trace =
      [EEvent.progressStart, EEvent.prog 0] ++
        (loopRun env.selectorActive env.oldState 0 env.frames).1 ++
        [EEvent.popupErr ((env.frames.getD k fe0).msg)] ++
        [EEvent.progressEnd] := by
    unfold exportRun
    rw [if_neg hg1, if_neg hg2]
    simp only [hD]
  have hin : ∀ e : EEvent,
      e ∈ (loopRun env.selectorActive env.oldState 0 env.frames).1 →
        e ∈ (exportRun env).trace := by
    intro e he
    rw [htr]
    exact List.mem_append.mpr (Or.inl (List.mem_append.mpr
      (Or.inl (List.mem_append.mpr (Or.inr he)))))
  have hout : ∀ e : EEvent, e ∈ (exportRun env).trace →
      e ∈ (loopRun env.selectorActive env.oldState 0 env.frames).1 ∨
        e = EEvent.progressStart ∨ e = EEvent.prog 0 ∨
        e = EEvent.popupErr ((env.frames.getD k fe0).msg) ∨
        e = EEvent.progressEnd := by
    intro e he
    rw [htr] at he
    rcases List.mem_append.mp he with h1 | h1
    · rcases List.mem_append.mp h1 with h2 | h2
      · rcases List.mem_append.mp h2 with h3 | h3
        · simp only [List.mem_cons, List.not_mem_nil, or_false] at h3
          tauto
        · exact Or.inl h3
      · simp only [List.mem_singleton] at h2
        tauto
    · simp only [List.mem_singleton] at h1
      tauto
  refine ⟨?_, ?_, ?_, ?_, ?_, ?_⟩
  · intro j hj
    obtain ⟨⟨st, hst⟩, hcl⟩ := hA j hj
    rw [Nat.zero_add] at hst hcl
    exact ⟨⟨st, hin _ hst⟩, hin _ hcl⟩
  · intro hop
    rcases hout _ hop with h | h | h | h | h
    · rw [Nat.zero_add] at hB
      exact hin _ (hB h)
    · exact absurd h (by simp)
    · exact absurd h (by simp)
    · exact absurd h (by simp)
    · exact absurd h (by simp)
  · intro m hm
    have hm0 : 0 + k < m := by omega
    constructor
    · intro h
      rcases hout _ h with h | h | h | h | h
      · exact (hC m hm0).1 h
      · exact absurd h (by simp)
      · exact absurd h (by simp)
      · exact absurd h (by simp)
      · exact absurd h (by simp)
    · intro st h
      rcases hout _ h with h | h | h | h | h
      · exact (hC m hm0).2 st h
      · exact absurd h (by simp)
      · exact absurd h (by simp)
      · exact absurd h (by simp)
      · exact absurd h (by simp)
  · obtain ⟨hnp, _⟩ :=
      loopRun_no_terminal env.selectorActive env.frames env.oldState 0
    rw [htr]
    simp [List.countP_append, List.countP_cons, isPopupErr, hnp]
  · rw [htr]
    simp
  · obtain ⟨_, hne⟩ :=
      loopRun_no_terminal env.selectorActive env.frames env.oldState 0
    rw [htr]
    simp [List.count_append, List.count_cons, hne]

/-- Witness for C2 on envAbort: frame 2 of 5 fails during write, frames 0
and 1 are written and closed, the single error popup carries the message,
frame 3 is never loaded, and progressEnd fires once. -/
theorem C2_export_abort_witness :
    (exportRun envAbort).trace.countP isPopupErr = 1 ∧
    EEvent.popupErr "boom" ∈ (exportRun envAbort).trace ∧
    (exportRun envAbort).trace.count EEvent.progressEnd = 1 ∧
    EEvent.closed 1 ∈ (exportRun envAbort).trace ∧
    EEvent.load 3 ∉ (exportRun envAbort).trace := by
  have h := C2_export_abort envAbort 2 FailPoint.serialize rfl rfl
    (by decide) (by decide) (by decide)
  exact ⟨h.2.2.2.1, h.2.2.2.2.1, h.2.2.2.2.2, (h.1 1 (by decide)).2,
    (h.2.2.1 3 (by decide)).1⟩

theorem before_append_left {t : List EEvent} (l : List EEvent)
    {a b : EEvent} (h : Before t a b) : Before (l ++ t) a b := by
  obtain ⟨p, q, hpq, hp, hq⟩ := h
  refine ⟨l.length + p, l.length + q, by omega, ?_, ?_⟩
  · rw [List.get?_append_right (by omega), Nat.add_sub_cancel_left]
    exact hp
  · rw [List.get?_append_right (by omega), Nat.add_sub_cancel_left]
    exact hq

theorem before_append_right {t : List EEvent} (r : List EEvent)
    {a b : EEvent} (h : Before t a b) : Before (t ++ r) a b := by
  obtain ⟨p, q, hpq, hp, hq⟩ := h
  have hq' : q < t.length := by
    rcases List.get?_eq_some.mp hq with ⟨hh, _⟩
    exact hh
  have hp' : p < t.length := by omega
  refine ⟨p, q, hpq, ?_, ?_⟩
  · rw [List.get?_append hp']
    exact hp
  · rw [List.get?_append hq']
    exact hq

theorem before_parts {l r : List EEvent} {a b : EEvent}
    (ha : a ∈ l) (hb : b ∈ r) : Before (l ++ r) a b := by
  obtain ⟨p, hp⟩ := List.mem_iff_get?.mp ha
  obtain ⟨q, hq⟩ := List.mem_iff_get?.mp hb
  have hpl : p < l.length := by
    rcases List.get?_eq_some.mp hp with ⟨hh, _⟩
    exact hh
  refine ⟨p, l.length + q, by omega, ?_, ?_⟩
  · rw [List.get?_append hpl]
    exact hp
  · rw [List.get?_append_right (by omega), Nat.add_sub_cancel_left]
    exact hq

theorem adjacent_append_left {t : List EEvent} (l : List EEvent)
    {a b : EEvent}
    (h : ∃ p, t.get? p = some a ∧ t.get? (p + 1) = some b) :
    ∃ p, (l ++ t).get? p = some a ∧ (l ++ t).get? (p + 1) = some b := by
  obtain ⟨p, hp, hp1⟩ := h
  refine ⟨l.length + p, ?_, ?_⟩
  · rw [List.get?_append_right (by omega), Nat.add_sub_cancel_left]
    exact hp
  · have harith : l.length + p + 1 - l.length = p + 1 := by omega
    rw [List.get?_append_right (by omega), harith]
    exact hp1

theorem adjacent_append_right {t : List EEvent} (r : List EEvent)
    {a b : EEvent}
    (h : ∃ p, t.get? p = some a ∧ t.get? (p + 1) = some b) :
    ∃ p, (t ++ r).get? p = some a ∧ (t ++ r).get? (p + 1) = some b := by
  obtain ⟨p, hp, hp1⟩ := h
  have hp1l : p + 1 < t.length := by
    rcases List.get?_eq_some.mp hp1 with ⟨hh, _⟩
    exact hh
  refine ⟨p, ?_, ?_⟩
  · rw [List.get?_append (by omega)]
    exact hp
  · rw [List.get?_append hp1l]
    exact hp1

theorem loopRun_load_drop (sel : Bool) (fs : List FrameEnv) :
    ∀ (old : Option (List Nat)) (i m : Nat),
      EEvent.load m ∈ (loopRun sel old i fs).1 →
      EEvent.drop m ∈ (loopRun sel old i fs).1 := by
  induction fs with
  | nil =>
    intro old i m h
    exact absurd h (by simp [loopRun])
  | cons f fs ih =>
    intro old i m h
    cases hfl : f.fail with
    | none =>
      rw [show (loopRun sel old i (f :: fs)).1 =
          okBlock i (maskPair sel f.oracle old f.loadedState).2 ++
            (loopRun sel (maskPair sel f.oracle old f.loadedState).1
              (i + 1) fs).1 from by simp [loopRun, hfl]] at h ⊢
      rcases List.mem_append.mp h with h | h
      · simp only [okBlock] at h
        simp only [List.mem_cons, List.not_mem_nil, or_false] at h
        have hmi : m = i := by
          rcases h with h | h | h | h | h | h | h <;> simp_all
        refine List.mem_append.mpr (Or.inl ?_)
        rw [hmi]
        simp [okBlock]
      · exact List.mem_append.mpr (Or.inr (ih _ _ _ h))
    | some fp =>
      cases fp with
      | load =>
        rw [show (loopRun sel old i (f :: fs)).1 = [] from by
          simp [loopRun, hfl]] at h
        exact absurd h (by simp)
      | handle =>
        rw [show (loopRun sel old i (f :: fs)).1 = handleFailBlock i from by
          simp [loopRun, hfl]] at h ⊢
        have hmi : m = i := by
          simp [handleFailBlock] at h
          exact h
        rw [hmi]
        simp [handleFailBlock]
      | serialize =>
        rw [show (loopRun sel old i (f :: fs)).1 = serFailBlock i from by
          simp [loopRun, hfl]] at h ⊢
        have hmi : m = i := by
          simp [serFailBlock] at h
          exact h
        rw [hmi]
        simp [serFailBlock]

theorem loopRun_drop_before_attach (sel : Bool) (fs : List FrameEnv) :
    ∀ (old : Option (List Nat)) (i m : Nat), i ≤ m →
      EEvent.attach (m + 1) ∈ (loopRun sel old i fs).1 →
      Before (loopRun sel old i fs).1 (EEvent.drop m)
        (EEvent.attach (m + 1)) := by
  induction fs with
  | nil =>
    intro old i m _ h
    exact absurd h (by simp [loopRun])
  | cons f fs ih =>
    intro old i m him h
    cases hfl : f.fail with
    | none =>
      rw [show (loopRun sel old i (f :: fs)).1 =
          okBlock i (maskPair sel f.oracle old f.loadedState).2 ++
            (loopRun sel (maskPair sel f.oracle old f.loadedState).1
              (i + 1) fs).1 from by simp [loopRun, hfl]] at h ⊢
      rcases List.mem_append.mp h with h | h
      · exfalso
        simp [okBlock] at h
        omega
      · by_cases hm : i + 1 ≤ m
        · exact before_append_left _ (ih _ _ _ hm h)
        · have hmi : m = i := by omega
          subst hmi
          exact before_parts (by simp [okBlock]) h
    | some fp =>
      exfalso
      cases fp with
      | load =>
        rw [show (loopRun sel old i (f :: fs)).1 = [] from by
          simp [loopRun, hfl]] at h
        exact absurd h (by simp)
      | handle =>
        rw [show (loopRun sel old i (f :: fs)).1 = handleFailBlock i from by
          simp [loopRun, hfl]] at h
        simp [handleFailBlock] at h
        omega
      | serialize =>
        rw [show (loopRun sel old i (f :: fs)).1 = serFailBlock i from by
          simp [loopRun, hfl]] at h
        simp [serFailBlock] at h
        omega

theorem loopRun_closed_drop (sel : Bool) (fs : List FrameEnv) :
    ∀ (old : Option (List Nat)) (i m : Nat),
      EEvent.closed m ∈ (loopRun sel old i fs).1 →
      ∃ p, (loopRun sel old i fs).1.get? p = some (EEvent.closed m) ∧
        (loopRun sel old i fs).1.get? (p + 1) = some (EEvent.drop m) := by
  induction fs with
  | nil =>
    intro old i m h
    exact absurd h (by simp [loopRun])
  | cons f fs ih =>
    intro old i m h
    cases hfl : f.fail with
    | none =>
      rw [show (loopRun sel old i (f :: fs)).1 =
          okBlock i (maskPair sel f.oracle old f.loadedState).2 ++
            (loopRun sel (maskPair sel f.oracle old f.loadedState).1
              (i + 1) fs).1 from by simp [loopRun, hfl]] at h ⊢
      rcases List.mem_append.mp h with h | h
      · have hmi : m = i := by
          simp [okBlock] at h
          exact h
        subst hmi
        refine ⟨5, ?_, ?_⟩
        · rw [List.get?_append (by simp [okBlock])]
          rfl
        · rw [List.get?_append (by simp [okBlock])]
          rfl
      · exact adjacent_append_left _ (ih _ _ _ h)
    | some fp =>
      cases fp with
      | load =>
        rw [show (loopRun sel old i (f :: fs)).1 = [] from by
          simp [loopRun, hfl]] at h
        exact absurd h (by simp)
      | handle =>
        rw [show (loopRun sel old i (f :: fs)).1 = handleFailBlock i from by
          simp [loopRun, hfl]] at h
        exfalso
        simp [handleFailBlock] at h
      | serialize =>
        rw [show (loopRun sel old i (f :: fs)).1 = serFailBlock i from by
          simp [loopRun, hfl]] at h ⊢
        have hmi : m = i := by
          simp [serFailBlock] at h
          exact h
        subst hmi
        exact ⟨4, rfl, rfl⟩

theorem exportRun_trace_shape (env : ExportEnv)
    (h1 : ¬(env.frames.length = 0 ∨ env.hasSplat = false))
    (h2 : ¬(env.sceneOk = false)) :
    (exportRun env).trace =
      [EEvent.progressStart, EEvent.prog 0] ++
        (loopRun env.selectorActive env.oldState 0 env.frames).1 ++
        (match (loopRun env.selectorActive env.oldState 0
            env.frames).2.2 with
         | some m => [EEvent.popupErr m]
         | none => [EEvent.popupOk]) ++ [EEvent.progressEnd] := by
  unfold exportRun
  rw [if_neg h1, if_neg h2]

/-- Claim C3: in every export run, each transient cloud that was loaded is
dropped within the run (none survives the export call); the transient of
frame i is dropped strictly before frame i+1's transient is attached; and
each drop happens immediately after its frame's writer close, so no
transient is kept once its frame's write has completed. -/
theorem C3_transient_lifecycle (env : ExportEnv) :
    (∀ i, EEvent.load i ∈ (exportRun env).trace →
      EEvent.drop i ∈ (exportRun env).trace) ∧
    (∀ i, EEvent.attach (i + 1) ∈ (exportRun env).trace →
      Before (exportRun env).trace (EEvent.drop i)
        (EEvent.attach (i + 1))) ∧
    (∀ i, EEvent.closed i ∈ (exportRun env).trace →
      ∃ p, (exportRun env).trace.get? p = some (EEvent.closed i) ∧
        (exportRun env).trace.get? (p + 1) = some (EEvent.drop i)) := by
  by_cases hg1 : env.frames.length = 0 ∨ env.hasSplat = false
  · have htr : (exportRun env).trace = [] := by
      unfold exportRun
      rw [if_pos hg1]
    rw [htr]
    exact ⟨fun i h => absurd h (by simp), fun i h => absurd h (by simp),
      fun i h => absurd h (by simp)⟩
  · by_cases hg2 : env.sceneOk = false
    · have htr : (exportRun env).trace = [] := by
        unfold exportRun
        rw [if_neg hg1, if_pos hg2]
      rw [htr]
      exact ⟨fun i h => absurd h (by simp), fun i h => absurd h (by simp),
        fun i h => absurd h (by simp)⟩
    · have htr := exportRun_trace_shape env hg1 hg2
      have hM : ∃ M : List EEvent,
          (exportRun env).trace =
            [EEvent.progressStart, EEvent.prog 0] ++
              (loopRun env.selectorActive env.oldState 0 env.frames).1 ++
              M ++ [EEvent.progressEnd] ∧
          (∀ i : Nat, EEvent.load i ∉ M) ∧
          (∀ i : Nat, EEvent.attach i ∉ M) ∧
          (∀ i : Nat, EEvent.closed i ∉ M) ∧
          (∀ i : Nat, EEvent.drop i ∉ M) := by
        cases h22 : (loopRun env.selectorActive env.oldState 0
            env.frames).2.2 with
        | none =>
          exact ⟨[EEvent.popupOk], by rw [htr, h22], by simp, by simp,
            by simp, by simp⟩
        | some m =>
          exact ⟨[EEvent.popupErr m], by rw [htr, h22], by simp, by simp,
            by simp, by simp⟩
      obtain ⟨M, htr2, hMl, hMa, hMc, hMd⟩ := hM
      have hsplit : ∀ e : EEvent, e ∈ (exportRun env).trace →
          e ∈ [EEvent.progressStart, EEvent.prog 0] ∨
          e ∈ (loopRun env.selectorActive env.oldState 0 env.frames).1 ∨
          e ∈ M ∨ e ∈ [EEvent.progressEnd] := by
        intro e he
        rw [htr2] at he
        rcases List.mem_append.mp he with h | h
        · rcases List.mem_append.mp h with h | h
          · rcases List.mem_append.mp h with h | h
            · exact Or.inl h
            · exact Or.inr (Or.inl h)
          · exact Or.inr (Or.inr (Or.inl h))
        · exact Or.inr (Or.inr (Or.inr h))
      have hembed : ∀ e : EEvent,
          e ∈ (loopRun env.selectorActive env.oldState 0 env.frames).1 →
          e ∈ (exportRun env).trace := by
        intro e he
        rw [htr2]
        exact List.mem_append.mpr (Or.inl (List.mem_append.mpr
          (Or.inl (List.mem_append.mpr (Or.inr he)))))
      refine ⟨?_, ?_, ?_⟩
      · intro i h
        rcases hsplit _ h with h | h | h | h
        · exact absurd h (by simp)
        · exact hembed _
            (loopRun_load_drop env.selectorActive env.frames _ _ _ h)
        · exact absurd h (hMl i)
        · exact absurd h (by simp)
      · intro i h
        rcases hsplit _ h with h | h | h | h
        · exact absurd h (by simp)
        · have hb := loopRun_drop_before_attach env.selectorActive
            env.frames env.oldState 0 i (Nat.zero_le i) h
          rw [htr2]
          exact before_append_right _ (before_append_right _
            (before_append_left _ hb))
        · exact absurd h (hMa (i + 1))
        · exact absurd h (by simp)
      · intro i h
        rcases hsplit _ h with h | h | h | h
        · exact absurd h (by simp)
        · have hb := loopRun_closed_drop env.selectorActive env.frames
            env.oldState 0 i h
          rw [htr2]
          exact adjacent_append_right _ (adjacent_append_right _
            (adjacent_append_left _ hb))
        · exact absurd h (hMc i)
        · exact absurd h (by simp)

/-- Witness for C3 on envTwo: in a two-frame export both transient clouds
are dropped inside the run. -/
theorem C3_transient_lifecycle_witness :
    EEvent.drop 0 ∈ (exportRun envTwo).trace ∧
    EEvent.drop 1 ∈ (exportRun envTwo).trace := by
  have h := C3_transient_lifecycle envTwo
  exact ⟨h.1 0 (by decide), h.1 1 (by decide)⟩

end PlySequence
